import Mathlib

/-!
# PostForge execution engine and image-conversion kernels: a verification development

This file gives a shallow embedding of the Cython module
`postforge/operators/_control_cy.pyx`:

* the hot dispatch loop `exec_exec` (one loop iteration is modelled as the
  function `exec_exec_step`), including its five execution paths, the
  execution-history recording, the inlined dictionary-stack lookup with the
  operator-table fast path, and the `for`-loop branch of `_handle_loop`;
* the CMYK sample converters `cmyk8_to_bgrx`, `cmyk4_to_bgrx` and
  `cmyk12_to_bgrx`;
* the color-key masking routine `apply_color_key_mask_8`.

Modelling conventions:

* Python lists used as stacks (`o_stack`, `e_stack`, `d_stack`) are modelled
  as Lean lists **with the top of the stack at the head**; `list.append(x)`
  becomes `x :: list`, `list.pop()` becomes `list.tail`, `list[-1]` becomes
  `list.head?`.  For the dictionary stack the Python index `0` (the bottom,
  `systemdict`) is therefore the **last** element of the Lean list.
* Python object identity is modelled by an `oid : ℕ` field on every object;
  `__copy__` produces the same object with a fresh `oid` drawn from the
  engine's `nextId` counter.  Two objects are reference-identical iff their
  `oid`s are equal; `PSObj.stripId` erases the top-level `oid`, so
  `a.stripId = b.stripId` is value equality of a shallow copy.
* CPython `int`/`float` scalars are modelled by `PyNum` (`ℤ` for `int`, `ℚ`
  for `float`; the file only adds and compares these, so `ℚ` models the
  IEEE doubles exactly on the inputs used in the theorems below).
* C `unsigned char` buffers are modelled as `List ℕ` of byte values; C `int`
  arithmetic is carried out in `ℤ`, and the C truncating cast `<int>` on a
  double is `truncQ`.
-/

/-! ## C-level type constants (from the top of `_control_cy.pyx`) -/

def C_T_ARRAY : ℕ := 0
def C_T_BOOL : ℕ := 1
def C_T_DICT : ℕ := 2
def C_T_FILE : ℕ := 3
def C_T_INT : ℕ := 6
def C_T_MARK : ℕ := 7
def C_T_NAME : ℕ := 8
def C_T_NULL : ℕ := 9
def C_T_OPERATOR : ℕ := 10
def C_T_PACKED_ARRAY : ℕ := 11
def C_T_REAL : ℕ := 12
def C_T_SAVE : ℕ := 13
def C_T_STRING : ℕ := 14
def C_T_STOPPED : ℕ := 15
def C_T_LOOP : ℕ := 16
def C_T_HARD_RETURN : ℕ := 17

def C_ATTRIB_LIT : ℕ := 0
def C_ATTRIB_EXEC : ℕ := 1

def C_LT_LOOP : ℕ := 6
def C_LT_REPEAT : ℕ := 8
def C_LT_FOR : ℕ := 3
def C_LT_FORALL : ℕ := 4
def C_LT_FILENAMEFORALL : ℕ := 2
def C_LT_PATHFORALL : ℕ := 7
def C_LT_CSHOW : ℕ := 1
def C_LT_KSHOW : ℕ := 5

/-- PostScript read-only access level (`ACCESS_READ_ONLY = 2` in the source). -/
def ACCESS_READ_ONLY : ℕ := 2

/-! ## Python scalars -/

/-- A CPython number: an `int` or a `float`.  The engine only ever adds and
compares these, so `ℚ` is an exact model of the `float` payloads involved. -/
inductive PyNum : Type where
  | pint (z : ℤ)
  | pfloat (q : ℚ)
deriving DecidableEq, Repr

def PyNum.toQ : PyNum → ℚ
  | .pint z => (z : ℚ)
  | .pfloat q => q

/-- `type(x) == int` in Python. -/
def PyNum.isInt : PyNum → Bool
  | .pint _ => true
  | .pfloat _ => false

/-- Python `+` on numbers: `int + int` is an `int`, any mix with a `float`
is a `float`. -/
def pyAdd : PyNum → PyNum → PyNum
  | .pint a, .pint b => .pint (a + b)
  | a, b => .pfloat (a.toQ + b.toQ)

/-- Python `<=` on numbers. -/
def pyLe (a b : PyNum) : Bool := decide (a.toQ ≤ b.toQ)

/-- Python `>=` on numbers. -/
def pyGe (a b : PyNum) : Bool := decide (b.toQ ≤ a.toQ)

/-! ## The object model -/

/-- A PostScript object (`PSObject` in `postforge/core/types.py`) as seen by
`exec_exec`.  Only the fields the engine reads are modelled:

* `ty`, `attrib` — the `TYPE` and `attrib` tags;
* `oid` — the Python object identity (see the module docstring);
* `nm` — the interned name payload of a `Name` (also the stored value of a
  `Bool`: `1` for true, `0` for false);
* `num` — the numeric payload of an `Int`/`Real`;
* `buf`, `start`, `len` — the shared backing buffer and slice window of an
  (executable) array, as used by execution path 5 (`top.val[top.start]`);
* `loopTy`, `control`, `limit`, `increment`, `proc` — the payload of a `Loop`
  marker (`proc` holds the loop body as a one-element list). -/
inductive PSObj : Type where
  | mk (ty : ℕ) (attrib : ℕ) (oid : ℕ) (nm : ℕ) (num : PyNum)
      (buf : List PSObj) (start : ℕ) (len : ℕ)
      (loopTy : ℕ) (control : PyNum) (limit : PyNum) (increment : PyNum)
      (proc : List PSObj) : PSObj

def PSObj.ty : PSObj → ℕ
  | .mk t _ _ _ _ _ _ _ _ _ _ _ _ => t

def PSObj.attrib : PSObj → ℕ
  | .mk _ a _ _ _ _ _ _ _ _ _ _ _ => a

def PSObj.oid : PSObj → ℕ
  | .mk _ _ o _ _ _ _ _ _ _ _ _ _ => o

def PSObj.nm : PSObj → ℕ
  | .mk _ _ _ n _ _ _ _ _ _ _ _ _ => n

def PSObj.num : PSObj → PyNum
  | .mk _ _ _ _ v _ _ _ _ _ _ _ _ => v

def PSObj.buf : PSObj → List PSObj
  | .mk _ _ _ _ _ b _ _ _ _ _ _ _ => b

def PSObj.start : PSObj → ℕ
  | .mk _ _ _ _ _ _ s _ _ _ _ _ _ => s

def PSObj.len : PSObj → ℕ
  | .mk _ _ _ _ _ _ _ l _ _ _ _ _ => l

def PSObj.loopTy : PSObj → ℕ
  | .mk _ _ _ _ _ _ _ _ lt _ _ _ _ => lt

def PSObj.control : PSObj → PyNum
  | .mk _ _ _ _ _ _ _ _ _ c _ _ _ => c

def PSObj.limit : PSObj → PyNum
  | .mk _ _ _ _ _ _ _ _ _ _ l _ _ => l

def PSObj.increment : PSObj → PyNum
  | .mk _ _ _ _ _ _ _ _ _ _ _ i _ => i

def PSObj.proc : PSObj → List PSObj
  | .mk _ _ _ _ _ _ _ _ _ _ _ _ p => p

/-- `__copy__` of a PSObject: the same shallow contents under a new identity. -/
def PSObj.withOid : PSObj → ℕ → PSObj
  | .mk t a _ n v b s l lt c li i p, o => .mk t a o n v b s l lt c li i p

/-- Erase the top-level identity; `a.stripId = b.stripId` says `b` is a
shallow copy of `a` (possibly `a` itself). -/
def PSObj.stripId (o : PSObj) : PSObj := o.withOid 0

/-- `top.start += 1; top.length -= 1` — the in-place advance performed by
execution path 5. -/
def PSObj.advance : PSObj → PSObj
  | .mk t a o n v b s l lt c li i p => .mk t a o n v b (s + 1) (l - 1) lt c li i p

/-- `top.control = x` — the in-place control update of the `for` branch. -/
def PSObj.setControl : PSObj → PyNum → PSObj
  | .mk t a o n v b s l lt _ li i p, c => .mk t a o n v b s l lt c li i p

/-- The `Null()` object, used as the (never observed) default of a buffer read. -/
def psDefault : PSObj :=
  .mk C_T_NULL C_ATTRIB_LIT 0 0 (.pint 0) [] 0 0 0 (.pint 0) (.pint 0) (.pint 0) []

instance : Inhabited PSObj := ⟨psDefault⟩

/-- `top.proc` of a `Loop` marker, as the single procedure object it holds. -/
def PSObj.procHead (o : PSObj) : PSObj := o.proc.headD psDefault

/-- `ps.Bool(b)` — a fresh literal boolean object. -/
def psBool (oid : ℕ) (b : Bool) : PSObj :=
  .mk C_T_BOOL C_ATTRIB_LIT oid (if b then 1 else 0) (.pint 0) [] 0 0 0
    (.pint 0) (.pint 0) (.pint 0) []

/-- `ps.Int(n)` — a fresh literal integer object. -/
def psInt (oid : ℕ) (n : PyNum) : PSObj :=
  .mk C_T_INT C_ATTRIB_LIT oid 0 n [] 0 0 0 (.pint 0) (.pint 0) (.pint 0) []

/-- `ps.Real(n)` — a fresh literal real object. -/
def psReal (oid : ℕ) (n : PyNum) : PSObj :=
  .mk C_T_REAL C_ATTRIB_LIT oid 0 n [] 0 0 0 (.pint 0) (.pint 0) (.pint 0) []

/-- The first dispatch test of `exec_exec`:
`top_type in (INT, REAL, BOOL, NULL, MARK)`. -/
def isPrimTy (t : ℕ) : Bool :=
  t == C_T_INT || t == C_T_REAL || t == C_T_BOOL || t == C_T_NULL || t == C_T_MARK

/-! ## Dictionaries and the dictionary stack -/

/-- A PostScript dictionary as seen by the lookup loop: an access level and
its `val` mapping (an association list keyed by interned name). -/
structure PSDict where
  access : ℕ
  entries : List (ℕ × PSObj)

/-- `d.val.get(key, None)` on the association-list model. -/
def assocGet (l : List (ℕ × PSObj)) (k : ℕ) : Option PSObj :=
  (l.find? (fun p => p.1 == k)).map (fun p => p.2)

/-- The normal dictionary-stack walk of execution path 3 (lines 129–136 of
the source): iterate from the top of the stack to the bottom, `continue`
past dictionaries with `access() < 2`, and stop at the first remaining
dictionary whose contents contain the key.  The input list has the top of
the dictionary stack first. -/
def dictWalk : List PSDict → ℕ → Option PSObj
  | [], _ => none
  | d :: rest, k =>
    if d.access < ACCESS_READ_ONLY then dictWalk rest k
    else
      match assocGet d.entries k with
      | some v => some v
      | none => dictWalk rest k

/-! ## Engine state and step results -/

/-- Pending-error names (the `ps_error` constants used by this module). -/
inductive PSErr : Type where
  | undefined
  | rangecheck
  | stackunderflow
  | invalidaccess
deriving DecidableEq, Repr

/-- The slice of the interpreter context (`ctxt`) that `exec_exec` reads and
writes, together with the two stacks it is passed.  Stacks are top-first
lists; `dStack` is top-first as well (so the Python `d_stack[0]`, the bottom,
is the last element).  `nextId` is the identity allocator for `__copy__`. -/
structure EngineState where
  oStack : List PSObj
  eStack : List PSObj
  dStack : List PSDict
  history : List PSObj
  histEnabled : Bool
  histPaused : Bool
  opTable : Option (List (ℕ × PSObj))
  err : Option PSErr
  nextId : ℕ

/-- Result of one iteration of the `exec_exec` dispatch loop.  Paths whose
continuation leaves this module (an operator invocation, a tokenizer call,
the non-`for` loop variants, `HardReturn`, loop exit) are surfaced as their
own constructors carrying the state at the hand-off point. -/
inductive StepOut : Type where
  | done (s : EngineState)
  | state (s : EngineState)
  | callOp (s : EngineState) (op : PSObj)
  | tokenize (s : EngineState)
  | loopOther (s : EngineState) (marker : PSObj)
  | hardReturn (s : EngineState)

/-- The engine state carried by any step result. -/
def StepOut.toSt : StepOut → EngineState
  | .done s => s
  | .state s => s
  | .callOp s _ => s
  | .tokenize s => s
  | .loopOther s _ => s
  | .hardReturn s => s

/-! ## The pieces of one loop iteration -/

/-- Lines 90–93 of the source: when execution history is enabled and not
paused, record a copy of the top object before dispatch — except when the
top is a `File` or `String`. -/
def recordHist (st : EngineState) (top : PSObj) : EngineState :=
  if st.histEnabled = true ∧ st.histPaused = false ∧
      ¬(top.ty = C_T_FILE ∨ top.ty = C_T_STRING) then
    { st with history := st.history ++ [top.withOid st.nextId],
              nextId := st.nextId + 1 }
  else st

/-- Modelled from the spec: the error routine `ps_error.e` lives in
`postforge/core/error.py`, which is not among the excerpted sources.  Per the
spec's PLRM error protocol it raises the named error *after* pushing the
offending object onto the operand stack; that is all this model records. -/
def psErrorE (st : EngineState) (e : PSErr) (offending : PSObj) : EngineState :=
  { st with oStack := offending :: st.oStack, err := some e }

/-- Execution path 3 (lines 113–146): the inlined `Name` lookup.  First the
operator-table fast path (only taken when the name is in `_operator_table`
and is not shadowed by any dictionary above the bottom of the stack), then
the normal dictionary-stack walk; a hit installs the bound value in place of
the name — a direct reference for an `Operator`, a `__copy__` otherwise —
and a miss raises `undefined`. -/
def nameStep (st : EngineState) (top : PSObj) : EngineState :=
  let fast : Option PSObj :=
    match st.opTable with
    | none => none
    | some tbl =>
      match assocGet tbl top.nm with
      | none => none
      | some v =>
        if (st.dStack.dropLast).any (fun d => (assocGet d.entries top.nm).isSome)
        then none
        else some v
  match fast with
  | some v => { st with eStack := v :: st.eStack.tail }
  | none =>
    match dictWalk st.dStack top.nm with
    | none => psErrorE st .undefined top
    | some obj =>
      if obj.ty = C_T_OPERATOR then { st with eStack := obj :: st.eStack.tail }
      else { st with eStack := obj.withOid st.nextId :: st.eStack.tail,
                     nextId := st.nextId + 1 }

/-- Execution path 5 (lines 176–222): peel the front element of an
executable (packed) array. -/
def arrStep (st : EngineState) (top : PSObj) : EngineState :=
  if top.len = 0 then { st with eStack := st.eStack.tail }
  else
    let obj := top.buf.getD top.start psDefault
    if top.len = 1 then
      if (obj.ty = C_T_ARRAY ∨ obj.ty = C_T_PACKED_ARRAY) ∧ obj.attrib = C_ATTRIB_EXEC then
        { st with oStack := obj.withOid st.nextId :: st.oStack,
                  nextId := st.nextId + 1,
                  eStack := top.advance :: st.eStack.tail }
      else if obj.attrib = C_ATTRIB_LIT then
        if isPrimTy obj.ty then
          { st with oStack := obj :: st.oStack,
                    eStack := top.advance :: st.eStack.tail }
        else
          { st with oStack := obj.withOid st.nextId :: st.oStack,
                    nextId := st.nextId + 1,
                    eStack := top.advance :: st.eStack.tail }
      else { st with eStack := obj :: st.eStack.tail }
    else
      if (obj.ty = C_T_ARRAY ∨ obj.ty = C_T_PACKED_ARRAY) ∧ obj.attrib = C_ATTRIB_EXEC then
        { st with oStack := obj.withOid st.nextId :: st.oStack,
                  nextId := st.nextId + 1,
                  eStack := top.advance :: st.eStack.tail }
      else if obj.attrib = C_ATTRIB_LIT then
        if isPrimTy obj.ty then
          { st with oStack := obj :: st.oStack,
                    eStack := top.advance :: st.eStack.tail }
        else
          { st with oStack := obj.withOid st.nextId :: st.oStack,
                    nextId := st.nextId + 1,
                    eStack := top.advance :: st.eStack.tail }
      else { st with eStack := obj :: top.advance :: st.eStack.tail }

/-- Lines 224–229: a `Stopped` marker reached with no `stop` fired — push
`false` and discard the marker. -/
def stoppedStep (st : EngineState) : EngineState :=
  { st with oStack := psBool st.nextId false :: st.oStack,
            eStack := st.eStack.tail,
            nextId := st.nextId + 1 }

/-- The `C_LT_FOR` branch of `_handle_loop` (lines 257–278): test the
continuation condition; on continuation push the control value (`Int` iff
the Python value is an `int`), add the increment, and schedule a fresh copy
of the body above the marker; otherwise pop the marker. -/
def handle_loop_for (st : EngineState) (top : PSObj) : EngineState :=
  let keepGoing :=
    if pyGe top.increment (.pint 0) then pyLe top.control top.limit
    else pyGe top.control top.limit
  if keepGoing then
    let pushObj :=
      if top.control.isInt then psInt st.nextId top.control
      else psReal st.nextId top.control
    { st with
        oStack := pushObj :: st.oStack,
        eStack := top.procHead.withOid (st.nextId + 1) ::
                  top.setControl (pyAdd top.control top.increment) :: st.eStack.tail,
        nextId := st.nextId + 2 }
  else { st with eStack := st.eStack.tail }

/-- The dispatch chain of `exec_exec` (lines 95–237), applied to the cached
top object after the history check. -/
def dispatch (st : EngineState) (top : PSObj) : StepOut :=
  if isPrimTy top.ty ∨ top.attrib = C_ATTRIB_LIT then
    .state { st with oStack := top :: st.oStack, eStack := st.eStack.tail }
  else if top.ty = C_T_OPERATOR then
    .callOp { st with eStack := st.eStack.tail } top
  else if top.ty = C_T_NAME then
    .state (nameStep st top)
  else if top.ty = C_T_FILE ∨ top.ty = C_T_STRING then
    .tokenize st
  else if top.ty = C_T_ARRAY ∨ top.ty = C_T_PACKED_ARRAY then
    .state (arrStep st top)
  else if top.ty = C_T_STOPPED then
    .state (stoppedStep st)
  else if top.ty = C_T_LOOP then
    if top.loopTy = C_LT_FOR then .state (handle_loop_for st top)
    else .loopOther st top
  else if top.ty = C_T_HARD_RETURN then
    .hardReturn { st with eStack := st.eStack.tail }
  else
    .state st

/-- One iteration of the `while e_stack:` loop of `exec_exec`: read (do not
pop) the top object, record history, dispatch.  The periodic event-loop
callback (lines 84–88) touches no engine state and is omitted. -/
def exec_exec_step (st : EngineState) : StepOut :=
  match st.eStack.head? with
  | none => .done st
  | some top => dispatch (recordHist st top) top

/-! ## CMYK sample converters (second source section of `_control_cy.pyx`) -/

/-- The C cast `<int>` on a double: truncation toward zero.  A normalised
rational has a positive denominator, so `Int.div` of numerator by
denominator (which rounds toward zero) is exactly the C semantics. -/
def truncQ (x : ℚ) : ℤ := Int.tdiv x.num (x.den : ℤ)

/-- The byte-quantisation tail shared by the float converters:
`val = <int>(x * 255.0); if val < 0: val = 0; if val > 255: val = 255`. -/
def byteOfQ (x : ℚ) : ℕ := (min 255 (max 0 (truncQ (x * 255)))).toNat

/-- One pixel of `cmyk8_to_bgrx` (lines 787–810): integer arithmetic
`r = 255 - c - k` clamped below at `0`, emitted in BGRX order. -/
def cmyk8Pixel (c m y k : ℕ) : List ℕ :=
  let r : ℤ := max 0 (255 - (c : ℤ) - (k : ℤ))
  let g : ℤ := max 0 (255 - (m : ℤ) - (k : ℤ))
  let b : ℤ := max 0 (255 - (y : ℤ) - (k : ℤ))
  [b.toNat, g.toNat, r.toNat, 255]

/-- `cmyk8_to_bgrx(src, num_pixels)`: 8-bit CMYK with identity decode to
BGRX. -/
def cmyk8_to_bgrx (src : List ℕ) (numPixels : ℕ) : List ℕ :=
  (List.range numPixels).flatMap fun i =>
    cmyk8Pixel (src.getD (4 * i) 0) (src.getD (4 * i + 1) 0)
      (src.getD (4 * i + 2) 0) (src.getD (4 * i + 3) 0)

/-- `(b >> 4) & 0x0F` on an unsigned char. -/
def nibHi (b : ℕ) : ℕ := b / 16 % 16

/-- `b & 0x0F` on an unsigned char. -/
def nibLo (b : ℕ) : ℕ := b % 16

/-- `max(0, min(1, x))` — the two-sided clamp of `cmyk4_to_bgrx`. -/
def clamp01 (x : ℚ) : ℚ := max 0 (min 1 x)

/-- One pixel of `cmyk4_to_bgrx` (lines 1194–1230): decode the four nibbles
of the two pixel bytes, apply `r = 1.0 - c - k` with the two-sided clamp,
and quantise to BGRX bytes. -/
def cmyk4Pixel (decode : List ℚ) (b1 b2 : ℕ) : List ℕ :=
  let cMin := decode.getD 0 0
  let cScale := (decode.getD 1 0 - cMin) / 15
  let mMin := decode.getD 2 0
  let mScale := (decode.getD 3 0 - mMin) / 15
  let yMin := decode.getD 4 0
  let yScale := (decode.getD 5 0 - yMin) / 15
  let kMin := decode.getD 6 0
  let kScale := (decode.getD 7 0 - kMin) / 15
  let c := cMin + (nibHi b1 : ℚ) * cScale
  let m := mMin + (nibLo b1 : ℚ) * mScale
  let y := yMin + (nibHi b2 : ℚ) * yScale
  let k := kMin + (nibLo b2 : ℚ) * kScale
  [byteOfQ (clamp01 (1 - y - k)), byteOfQ (clamp01 (1 - m - k)),
   byteOfQ (clamp01 (1 - c - k)), 255]

/-- `cmyk4_to_bgrx(src, width, height, decode_array)`: 4-bit CMYK, two bytes
per pixel, no row padding. -/
def cmyk4_to_bgrx (src : List ℕ) (width height : ℕ) (decode : List ℚ) : List ℕ :=
  (List.range (width * height)).flatMap fun p =>
    cmyk4Pixel decode (src.getD (2 * p) 0) (src.getD (2 * p + 1) 0)

/-- Extraction of the 12-bit sample number `sampleIdx` of a row starting at
byte `rowStart` (the shared pattern of the 12-bit converters; `|` of the two
disjoint shifted parts is addition on byte values). -/
def get12 (src : List ℕ) (rowStart sampleIdx : ℕ) : ℕ :=
  let bitPos := sampleIdx * 12
  let byteIdx := rowStart + bitPos / 8
  if bitPos % 8 = 0 then src.getD byteIdx 0 * 16 + src.getD (byteIdx + 1) 0 / 16
  else src.getD byteIdx 0 % 16 * 256 + src.getD (byteIdx + 1) 0

/-- One pixel of `cmyk12_to_bgrx` (lines 1282–1306): decode the four 12-bit
samples and apply the **multiplicative** formula `r = (1-c)*(1-k)` (per the
source's own docstring), then quantise to BGRX bytes. -/
def cmyk12Pixel (decode : List ℚ) (cv mv yv kv : ℕ) : List ℕ :=
  let c := decode.getD 0 0 + (cv : ℚ) * ((decode.getD 1 0 - decode.getD 0 0) / 4095)
  let m := decode.getD 2 0 + (mv : ℚ) * ((decode.getD 3 0 - decode.getD 2 0) / 4095)
  let y := decode.getD 4 0 + (yv : ℚ) * ((decode.getD 5 0 - decode.getD 4 0) / 4095)
  let k := decode.getD 6 0 + (kv : ℚ) * ((decode.getD 7 0 - decode.getD 6 0) / 4095)
  [byteOfQ ((1 - y) * (1 - k)), byteOfQ ((1 - m) * (1 - k)),
   byteOfQ ((1 - c) * (1 - k)), 255]

/-- `cmyk12_to_bgrx(src, width, height, decode_array)`: 12-bit CMYK,
row-padded to a byte boundary. -/
def cmyk12_to_bgrx (src : List ℕ) (width height : ℕ) (decode : List ℚ) : List ℕ :=
  let bytesPerRow := (width * 4 * 12 + 7) / 8
  (List.range height).flatMap fun row =>
    (List.range width).flatMap fun col =>
      cmyk12Pixel decode
        (get12 src (row * bytesPerRow) (col * 4))
        (get12 src (row * bytesPerRow) (col * 4 + 1))
        (get12 src (row * bytesPerRow) (col * 4 + 2))
        (get12 src (row * bytesPerRow) (col * 4 + 3))

/-! ## Color-key masking (`apply_color_key_mask_8`, lines 1315–1349) -/

/-- The per-pixel match test of `apply_color_key_mask_8`: exact equality of
every raw component against `mask_color[i]`, or containment in the pair
`mask_color[2*i], mask_color[2*i+1]` when `is_range` is set. -/
def sampleMatches (sampleData maskColor : List ℕ) (isRange : Bool)
    (n sampleOffset : ℕ) : Bool :=
  if isRange then
    (List.range n).all fun i =>
      decide (maskColor.getD (i * 2) 0 ≤ sampleData.getD (sampleOffset + i) 0 ∧
        sampleData.getD (sampleOffset + i) 0 ≤ maskColor.getD (i * 2 + 1) 0)
  else
    (List.range n).all fun i =>
      sampleData.getD (sampleOffset + i) 0 == maskColor.getD i 0

/-- The pixel loop of `apply_color_key_mask_8`, recursing over the number of
pixels still to process: stop early when the sample data runs out, otherwise
zero the alpha byte `pixel_idx * 4 + 3` of every matching pixel (bounds
permitting). -/
def maskGo (sampleData : List ℕ) (n : ℕ) (maskColor : List ℕ) (isRange : Bool) :
    List ℕ → ℕ → ℕ → List ℕ
  | pixelData, _, 0 => pixelData
  | pixelData, pixelIdx, count + 1 =>
    if sampleData.length < pixelIdx * n + n then pixelData
    else
      let pixelData' :=
        if sampleMatches sampleData maskColor isRange n (pixelIdx * n) then
          if pixelIdx * 4 + 3 < pixelData.length then pixelData.set (pixelIdx * 4 + 3) 0
          else pixelData
        else pixelData
      maskGo sampleData n maskColor isRange pixelData' (pixelIdx + 1) count

/-- `apply_color_key_mask_8(pixel_data, sample_data, width, height,
components, mask_color, is_range)`, returning the updated `pixel_data`. -/
def apply_color_key_mask_8 (pixelData sampleData : List ℕ)
    (width height components : ℕ) (maskColor : List ℕ) (isRange : Bool) : List ℕ :=
  maskGo sampleData components maskColor isRange pixelData 0 (width * height)

/-! ## Helper lemmas about one engine iteration -/

theorem recordHist_oStack (st : EngineState) (top : PSObj) :
    (recordHist st top).oStack = st.oStack := by
  unfold recordHist; split <;> rfl

theorem recordHist_eStack (st : EngineState) (top : PSObj) :
    (recordHist st top).eStack = st.eStack := by
  unfold recordHist; split <;> rfl

theorem recordHist_dStack (st : EngineState) (top : PSObj) :
    (recordHist st top).dStack = st.dStack := by
  unfold recordHist; split <;> rfl

theorem recordHist_err (st : EngineState) (top : PSObj) :
    (recordHist st top).err = st.err := by
  unfold recordHist; split <;> rfl

theorem recordHist_opTable (st : EngineState) (top : PSObj) :
    (recordHist st top).opTable = st.opTable := by
  unfold recordHist; split <;> rfl

theorem recordHist_nextId_ge (st : EngineState) (top : PSObj) :
    st.nextId ≤ (recordHist st top).nextId := by
  unfold recordHist; split
  · exact Nat.le_succ _
  · exact Nat.le_refl _

theorem exec_exec_step_eq_dispatch (st : EngineState) (top : PSObj)
    (h : st.eStack.head? = some top) :
    exec_exec_step st = dispatch (recordHist st top) top := by
  unfold exec_exec_step; rw [h]

theorem dispatch_lit (st : EngineState) (top : PSObj)
    (h : isPrimTy top.ty = true ∨ top.attrib = C_ATTRIB_LIT) :
    dispatch st top =
      .state { st with oStack := top :: st.oStack, eStack := st.eStack.tail } := by
  unfold dispatch
  rw [if_pos]
  exact h.imp (fun h' => by exact_mod_cast h') id

theorem dispatch_stopped (st : EngineState) (top : PSObj)
    (hty : top.ty = C_T_STOPPED) (hat : top.attrib ≠ C_ATTRIB_LIT) :
    dispatch st top = .state (stoppedStep st) := by
  unfold dispatch
  rw [if_neg, if_neg, if_neg, if_neg, if_neg, if_pos hty] <;>
    simp [hty, hat, isPrimTy, C_T_STOPPED, C_T_INT, C_T_REAL, C_T_BOOL, C_T_NULL,
      C_T_MARK, C_T_OPERATOR, C_T_NAME, C_T_FILE, C_T_STRING, C_T_ARRAY,
      C_T_PACKED_ARRAY]

theorem dispatch_name (st : EngineState) (top : PSObj)
    (hty : top.ty = C_T_NAME) (hat : top.attrib ≠ C_ATTRIB_LIT) :
    dispatch st top = .state (nameStep st top) := by
  unfold dispatch
  rw [if_neg, if_neg, if_pos hty] <;>
    simp [hty, hat, isPrimTy, C_T_NAME, C_T_INT, C_T_REAL, C_T_BOOL, C_T_NULL,
      C_T_MARK, C_T_OPERATOR]

theorem dispatch_tokenize (st : EngineState) (top : PSObj)
    (hty : top.ty = C_T_FILE ∨ top.ty = C_T_STRING) (hat : top.attrib ≠ C_ATTRIB_LIT) :
    dispatch st top = .tokenize st := by
  unfold dispatch
  rcases hty with h | h <;>
    (rw [if_neg, if_neg, if_neg, if_pos] <;>
      simp [h, hat, isPrimTy, C_T_FILE, C_T_STRING, C_T_INT, C_T_REAL, C_T_BOOL,
        C_T_NULL, C_T_MARK, C_T_OPERATOR, C_T_NAME])

theorem dispatch_arr (st : EngineState) (top : PSObj)
    (hty : top.ty = C_T_ARRAY ∨ top.ty = C_T_PACKED_ARRAY)
    (hat : top.attrib ≠ C_ATTRIB_LIT) :
    dispatch st top = .state (arrStep st top) := by
  unfold dispatch
  rcases hty with h | h <;>
    (rw [if_neg, if_neg, if_neg, if_neg, if_pos] <;>
      simp [h, hat, isPrimTy, C_T_ARRAY, C_T_PACKED_ARRAY, C_T_INT, C_T_REAL,
        C_T_BOOL, C_T_NULL, C_T_MARK, C_T_OPERATOR, C_T_NAME, C_T_FILE, C_T_STRING])

theorem dispatch_loop_for (st : EngineState) (top : PSObj)
    (hty : top.ty = C_T_LOOP) (hat : top.attrib ≠ C_ATTRIB_LIT)
    (hlt : top.loopTy = C_LT_FOR) :
    dispatch st top = .state (handle_loop_for st top) := by
  unfold dispatch
  rw [if_neg, if_neg, if_neg, if_neg, if_neg, if_neg, if_pos hty, if_pos hlt] <;>
    simp [hty, hat, isPrimTy, C_T_LOOP, C_T_INT, C_T_REAL, C_T_BOOL, C_T_NULL,
      C_T_MARK, C_T_OPERATOR, C_T_NAME, C_T_FILE, C_T_STRING, C_T_ARRAY,
      C_T_PACKED_ARRAY, C_T_STOPPED]

/-- A minimal engine state used by the concrete witnesses below. -/
def baseSt : EngineState :=
  { oStack := [], eStack := [], dStack := [], history := [],
    histEnabled := false, histPaused := false, opTable := none,
    err := none, nextId := 100 }

/-- **C8.** When the top of the execution stack is Int, Real, Bool, Null, or
Mark, or its attribute is literal, `exec_exec` pops it from the execution
stack and pushes that same object (by reference) onto the operand stack,
with no other change to either stack. -/
theorem claim_C8 (st : EngineState) (top : PSObj)
    (htop : st.eStack.head? = some top)
    (h : (top.ty = C_T_INT ∨ top.ty = C_T_REAL ∨ top.ty = C_T_BOOL ∨
          top.ty = C_T_NULL ∨ top.ty = C_T_MARK) ∨ top.attrib = C_ATTRIB_LIT) :
    ∃ st', exec_exec_step st = .state st' ∧
      st'.oStack = top :: st.oStack ∧ st'.eStack = st.eStack.tail ∧
      st'.dStack = st.dStack ∧ st'.err = st.err := by
  have hp : isPrimTy top.ty = true ∨ top.attrib = C_ATTRIB_LIT := by
    rcases h with h | h
    · left
      rcases h with h | h | h | h | h <;>
        simp [isPrimTy, h, C_T_INT, C_T_REAL, C_T_BOOL, C_T_NULL, C_T_MARK]
    · right; exact h
  refine ⟨{ recordHist st top with
            oStack := top :: (recordHist st top).oStack,
            eStack := (recordHist st top).eStack.tail }, ?_, ?_, ?_, ?_, ?_⟩
  · rw [exec_exec_step_eq_dispatch st top htop, dispatch_lit _ _ hp]
  · simp [recordHist_oStack]
  · simp [recordHist_eStack]
  · simp [recordHist_dStack]
  · simp [recordHist_err]

theorem claim_C8_witness :
    (({ baseSt with eStack := [psInt 5 (.pint 7)] } : EngineState).eStack.head? =
      some (psInt 5 (.pint 7))) ∧
    ∃ st', exec_exec_step { baseSt with eStack := [psInt 5 (.pint 7)] } = .state st' ∧
      st'.oStack = psInt 5 (.pint 7) ::
        ({ baseSt with eStack := [psInt 5 (.pint 7)] } : EngineState).oStack ∧
      st'.eStack = ({ baseSt with eStack := [psInt 5 (.pint 7)] } : EngineState).eStack.tail ∧
      st'.dStack = ({ baseSt with eStack := [psInt 5 (.pint 7)] } : EngineState).dStack ∧
      st'.err = ({ baseSt with eStack := [psInt 5 (.pint 7)] } : EngineState).err :=
  ⟨rfl, claim_C8 _ _ rfl (Or.inl (Or.inl rfl))⟩

/-- **C9.** When the top of the execution stack is an executable array or
packed array whose length is 0, `exec_exec` pops it and makes no other
change: the operand stack and the remainder of the execution stack (and the
dictionary stack and error state) are exactly as before. -/
theorem claim_C9 (st : EngineState) (top : PSObj)
    (htop : st.eStack.head? = some top)
    (hty : top.ty = C_T_ARRAY ∨ top.ty = C_T_PACKED_ARRAY)
    (hat : top.attrib = C_ATTRIB_EXEC) (hlen : top.len = 0) :
    ∃ st', exec_exec_step st = .state st' ∧
      st'.oStack = st.oStack ∧ st'.eStack = st.eStack.tail ∧
      st'.dStack = st.dStack ∧ st'.err = st.err := by
  have hat' : top.attrib ≠ C_ATTRIB_LIT := by
    rw [hat]; simp [C_ATTRIB_EXEC, C_ATTRIB_LIT]
  refine ⟨{ recordHist st top with eStack := (recordHist st top).eStack.tail },
    ?_, ?_, ?_, ?_, ?_⟩
  · rw [exec_exec_step_eq_dispatch st top htop, dispatch_arr _ _ hty hat']
    unfold arrStep
    rw [if_pos hlen]
  · simp [recordHist_oStack]
  · simp [recordHist_eStack]
  · simp [recordHist_dStack]
  · simp [recordHist_err]

/-- The empty executable array used by the C9 witness. -/
def c9Arr : PSObj :=
  .mk C_T_ARRAY C_ATTRIB_EXEC 7 0 (.pint 0) [] 0 0 0 (.pint 0) (.pint 0) (.pint 0) []

theorem claim_C9_witness :
    (({ baseSt with eStack := [c9Arr] } : EngineState).eStack.head? = some c9Arr) ∧
    c9Arr.ty = C_T_ARRAY ∧ c9Arr.attrib = C_ATTRIB_EXEC ∧ c9Arr.len = 0 ∧
    ∃ st', exec_exec_step { baseSt with eStack := [c9Arr] } = .state st' ∧
      st'.oStack = ({ baseSt with eStack := [c9Arr] } : EngineState).oStack ∧
      st'.eStack = ({ baseSt with eStack := [c9Arr] } : EngineState).eStack.tail ∧
      st'.dStack = ({ baseSt with eStack := [c9Arr] } : EngineState).dStack ∧
      st'.err = ({ baseSt with eStack := [c9Arr] } : EngineState).err :=
  ⟨rfl, rfl, rfl, rfl, claim_C9 _ _ rfl (Or.inl rfl) rfl rfl⟩

/-- **C7.** When the dispatch loop reaches a `Stopped` marker on top of the
execution stack naturally, it pushes the boolean `false` onto the operand
stack and pops the marker, leaving the rest of both stacks (and the
dictionary stack and error state) unchanged. -/
theorem claim_C7 (st : EngineState) (top : PSObj)
    (htop : st.eStack.head? = some top)
    (hty : top.ty = C_T_STOPPED) (hat : top.attrib ≠ C_ATTRIB_LIT) :
    ∃ st' k, exec_exec_step st = .state st' ∧
      st'.oStack = psBool k false :: st.oStack ∧ st'.eStack = st.eStack.tail ∧
      st'.dStack = st.dStack ∧ st'.err = st.err := by
  refine ⟨stoppedStep (recordHist st top), (recordHist st top).nextId,
    ?_, ?_, ?_, ?_, ?_⟩
  · rw [exec_exec_step_eq_dispatch st top htop, dispatch_stopped _ _ hty hat]
  · simp [stoppedStep, recordHist_oStack]
  · simp [stoppedStep, recordHist_eStack]
  · simp [stoppedStep, recordHist_dStack]
  · simp [stoppedStep, recordHist_err]

/-- The `Stopped` marker used by the C7 witness. -/
def c7Marker : PSObj :=
  .mk C_T_STOPPED C_ATTRIB_EXEC 9 0 (.pint 0) [] 0 0 0 (.pint 0) (.pint 0) (.pint 0) []

theorem claim_C7_witness :
    (({ baseSt with eStack := [c7Marker] } : EngineState).eStack.head? = some c7Marker) ∧
    c7Marker.ty = C_T_STOPPED ∧ c7Marker.attrib ≠ C_ATTRIB_LIT ∧
    ∃ st' k, exec_exec_step { baseSt with eStack := [c7Marker] } = .state st' ∧
      st'.oStack = psBool k false ::
        ({ baseSt with eStack := [c7Marker] } : EngineState).oStack ∧
      st'.eStack = ({ baseSt with eStack := [c7Marker] } : EngineState).eStack.tail ∧
      st'.dStack = ({ baseSt with eStack := [c7Marker] } : EngineState).dStack ∧
      st'.err = ({ baseSt with eStack := [c7Marker] } : EngineState).err :=
  ⟨rfl, rfl, by decide, claim_C7 _ _ rfl rfl (by decide)⟩

/-! ## C6: execution-history recording -/

theorem nameStep_history (st : EngineState) (top : PSObj) :
    (nameStep st top).history = st.history := by
  simp only [nameStep, psErrorE]
  repeat' split
  all_goals rfl

theorem arrStep_history (st : EngineState) (top : PSObj) :
    (arrStep st top).history = st.history := by
  simp only [arrStep]
  repeat' split
  all_goals rfl

theorem handle_loop_for_history (st : EngineState) (top : PSObj) :
    (handle_loop_for st top).history = st.history := by
  simp only [handle_loop_for]
  repeat' split
  all_goals rfl

theorem dispatch_history (st : EngineState) (top : PSObj) :
    (dispatch st top).toSt.history = st.history := by
  simp only [dispatch]
  repeat' split
  all_goals
    simp only [StepOut.toSt, stoppedStep, nameStep_history, arrStep_history,
      handle_loop_for_history]

/-- **C6 (amended).** When execution history is enabled and not paused, the
engine records a copy of each top-of-stack object just before dispatching
it, for every object the dispatch loop processes **except `File` and
`String` objects** (the tokenizable path is never recorded). -/
theorem claim_C6_amended (st : EngineState) (top : PSObj)
    (htop : st.eStack.head? = some top)
    (hEn : st.histEnabled = true) (hP : st.histPaused = false)
    (h1 : top.ty ≠ C_T_FILE) (h2 : top.ty ≠ C_T_STRING) :
    (exec_exec_step st).toSt.history = st.history ++ [top.withOid st.nextId] := by
  rw [exec_exec_step_eq_dispatch st top htop, dispatch_history]
  unfold recordHist
  rw [if_pos]
  exact ⟨hEn, hP, by rintro (h | h) <;> [exact h1 h; exact h2 h]⟩

theorem claim_C6_amended_witness :
    (({ baseSt with eStack := [psInt 5 (.pint 7)], histEnabled := true }
        : EngineState).eStack.head? = some (psInt 5 (.pint 7))) ∧
    (exec_exec_step { baseSt with eStack := [psInt 5 (.pint 7)], histEnabled := true }
        ).toSt.history =
      ({ baseSt with eStack := [psInt 5 (.pint 7)], histEnabled := true }
        : EngineState).history ++ [(psInt 5 (.pint 7)).withOid 100] :=
  ⟨rfl, claim_C6_amended _ _ rfl rfl rfl (by decide) (by decide)⟩

/-- The `File` object at the heart of the C6 counterexample. -/
def c6File : PSObj :=
  .mk C_T_FILE C_ATTRIB_EXEC 3 0 (.pint 0) [] 0 0 0 (.pint 0) (.pint 0) (.pint 0) []

/-- The engine state of the C6 counterexample: history enabled, not paused,
and an executable `File` on top of the execution stack. -/
def c6St : EngineState :=
  { baseSt with eStack := [c6File], histEnabled := true }

/-- **C6 (counterexample).** With history enabled and not paused, a `File`
object on top of the execution stack is processed by the dispatch loop
(handed to the tokenizer path) without being recorded: the history stays
empty, refuting the claim that *every* processed object is recorded. -/
theorem claim_C6_counterexample :
    c6St.histEnabled = true ∧ c6St.histPaused = false ∧
    c6St.eStack.head? = some c6File ∧
    exec_exec_step c6St = .tokenize c6St ∧
    (exec_exec_step c6St).toSt.history = [] ∧
    ¬((exec_exec_step c6St).toSt.history =
        c6St.history ++ [c6File.withOid c6St.nextId]) := by
  have hrec : recordHist c6St c6File = c6St := rfl
  have h4 : exec_exec_step c6St = .tokenize c6St := by
    rw [exec_exec_step_eq_dispatch c6St c6File rfl, hrec]
    exact dispatch_tokenize c6St c6File (Or.inl rfl) (by decide)
  refine ⟨rfl, rfl, rfl, h4, ?_, ?_⟩
  · rw [h4]; rfl
  · rw [h4]
    intro h
    simp [c6St, baseSt, StepOut.toSt] at h

/-! ## C4: the `for` loop marker -/

theorem PSObj.stripId_withOid (o : PSObj) (k : ℕ) :
    (o.withOid k).stripId = o.stripId := by
  cases o; rfl

theorem pyAdd_int (a b : PyNum) (ha : a.isInt = true) (hb : b.isInt = true) :
    (pyAdd a b).isInt = true := by
  cases a <;> cases b <;> simp_all [pyAdd, PyNum.isInt]

/-- **C4.** When a `for`-loop marker is dispatched, the engine continues the
loop exactly while the control value has not passed the limit
(`control <= limit` for `increment >= 0`, `control >= limit` otherwise); at
each continued iteration it pushes the control value onto the operand stack
— as an `Int` object iff the control value is a Python integer, which it
remains whenever control and increment are both integers (hence while all
three `for` operands are `Int`) — then adds the increment to the control
value and schedules a fresh copy of the body above the marker; when the
condition fails the marker is popped. -/
theorem claim_C4 (st : EngineState) (top : PSObj)
    (htop : st.eStack.head? = some top)
    (hty : top.ty = C_T_LOOP) (hat : top.attrib ≠ C_ATTRIB_LIT)
    (hlt : top.loopTy = C_LT_FOR) :
    ∃ st', exec_exec_step st = .state st' ∧
      (((if pyGe top.increment (.pint 0) then pyLe top.control top.limit
          else pyGe top.control top.limit) = true) →
        ∃ pushObj procCopy,
          st'.oStack = pushObj :: st.oStack ∧
          pushObj.ty = (if top.control.isInt then C_T_INT else C_T_REAL) ∧
          (pushObj.ty = C_T_INT ↔ top.control.isInt = true) ∧
          pushObj.num = top.control ∧
          st'.eStack = procCopy ::
            top.setControl (pyAdd top.control top.increment) :: st.eStack.tail ∧
          procCopy.stripId = top.procHead.stripId ∧
          (top.control.isInt = true → top.increment.isInt = true →
            (pyAdd top.control top.increment).isInt = true)) ∧
      (((if pyGe top.increment (.pint 0) then pyLe top.control top.limit
          else pyGe top.control top.limit) = false) →
        st'.oStack = st.oStack ∧ st'.eStack = st.eStack.tail) := by
  refine ⟨handle_loop_for (recordHist st top) top, ?_, ?_, ?_⟩
  · rw [exec_exec_step_eq_dispatch st top htop, dispatch_loop_for _ _ hty hat hlt]
  · intro hcond
    refine ⟨(if top.control.isInt then psInt (recordHist st top).nextId top.control
              else psReal (recordHist st top).nextId top.control),
            top.procHead.withOid ((recordHist st top).nextId + 1), ?_, ?_, ?_, ?_, ?_, ?_, ?_⟩
    · simp only [handle_loop_for, hcond, if_true, recordHist_oStack]
    · by_cases hI : top.control.isInt = true <;> simp [hI, psInt, psReal, PSObj.ty]
    · by_cases hI : top.control.isInt = true <;>
        simp [hI, psInt, psReal, PSObj.ty, C_T_INT, C_T_REAL]
    · by_cases hI : top.control.isInt = true <;> simp [hI, psInt, psReal, PSObj.num]
    · simp only [handle_loop_for, hcond, if_true, recordHist_eStack]
    · exact PSObj.stripId_withOid _ _
    · exact pyAdd_int _ _
  · intro hcond
    constructor
    · simp only [handle_loop_for, hcond, Bool.false_eq_true, if_false, recordHist_oStack]
    · simp only [handle_loop_for, hcond, Bool.false_eq_true, if_false, recordHist_eStack]

/-- The loop body of the C4 witness. -/
def c4Proc : PSObj :=
  .mk C_T_ARRAY C_ATTRIB_EXEC 11 0 (.pint 0) [psInt 12 (.pint 1)] 0 1 0
    (.pint 0) (.pint 0) (.pint 0) []

/-- The `for`-loop marker of the C4 witness (`0 1 2 {…} for` mid-flight). -/
def c4Marker : PSObj :=
  .mk C_T_LOOP C_ATTRIB_EXEC 13 0 (.pint 0) [] 0 0 C_LT_FOR
    (.pint 0) (.pint 2) (.pint 1) [c4Proc]

/-- The engine state of the C4 witness. -/
def c4St : EngineState := { baseSt with eStack := [c4Marker] }

theorem claim_C4_witness :
    c4St.eStack.head? = some c4Marker ∧ c4Marker.ty = C_T_LOOP ∧
    c4Marker.attrib ≠ C_ATTRIB_LIT ∧ c4Marker.loopTy = C_LT_FOR ∧
    (∃ st', exec_exec_step c4St = .state st' ∧
      (((if pyGe c4Marker.increment (.pint 0) then pyLe c4Marker.control c4Marker.limit
          else pyGe c4Marker.control c4Marker.limit) = true) →
        ∃ pushObj procCopy,
          st'.oStack = pushObj :: c4St.oStack ∧
          pushObj.ty = (if c4Marker.control.isInt then C_T_INT else C_T_REAL) ∧
          (pushObj.ty = C_T_INT ↔ c4Marker.control.isInt = true) ∧
          pushObj.num = c4Marker.control ∧
          st'.eStack = procCopy ::
            c4Marker.setControl (pyAdd c4Marker.control c4Marker.increment) ::
              c4St.eStack.tail ∧
          procCopy.stripId = c4Marker.procHead.stripId ∧
          (c4Marker.control.isInt = true → c4Marker.increment.isInt = true →
            (pyAdd c4Marker.control c4Marker.increment).isInt = true)) ∧
      (((if pyGe c4Marker.increment (.pint 0) then pyLe c4Marker.control c4Marker.limit
          else pyGe c4Marker.control c4Marker.limit) = false) →
        st'.oStack = c4St.oStack ∧ st'.eStack = c4St.eStack.tail)) :=
  ⟨rfl, rfl, by decide, rfl, claim_C4 _ _ rfl rfl (by decide) rfl⟩

/-! ## C1 and C3: the Name execution path -/

theorem PSObj.oid_withOid (o : PSObj) (k : ℕ) : (o.withOid k).oid = k := by
  cases o; rfl

theorem dictWalk_last (l : List PSDict) (d : PSDict) (k : ℕ)
    (h : ∀ d' ∈ l, assocGet d'.entries k = none) :
    dictWalk (l ++ [d]) k =
      if d.access < ACCESS_READ_ONLY then none else assocGet d.entries k := by
  induction l with
  | nil =>
    simp only [List.nil_append, dictWalk]
    split
    · rfl
    · rcases hg : assocGet d.entries k with _ | v <;> simp [hg, dictWalk]
  | cons d' l ih =>
    have hd' : assocGet d'.entries k = none := h d' (List.mem_cons_self d' l)
    have hrest : ∀ x ∈ l, assocGet x.entries k = none :=
      fun x hx => h x (List.mem_cons_of_mem d' hx)
    simp only [List.cons_append, dictWalk, hd']
    split
    · exact ih hrest
    · exact ih hrest

/-- Characterisation of the inlined Name lookup (execution path 3): under
the program invariant that the operator table mirrors operator entries of
the bottom (system) dictionary and that this dictionary is at least
read-only, the fast path agrees with the normal dictionary-stack walk, so
`nameStep` installs the walk's result (copying non-operators) or raises
`undefined`. -/
theorem nameStep_spec (st : EngineState) (top : PSObj)
    (htbl : ∀ tbl, st.opTable = some tbl → ∀ k v, assocGet tbl k = some v →
      v.ty = C_T_OPERATOR ∧ ∃ d, st.dStack.getLast? = some d ∧
        ACCESS_READ_ONLY ≤ d.access ∧ assocGet d.entries k = some v) :
    match dictWalk st.dStack top.nm with
    | some v =>
        nameStep st top =
          if v.ty = C_T_OPERATOR then { st with eStack := v :: st.eStack.tail }
          else { st with eStack := v.withOid st.nextId :: st.eStack.tail,
                         nextId := st.nextId + 1 }
    | none => nameStep st top = psErrorE st .undefined top := by
  unfold nameStep
  rcases hop : st.opTable with _ | tbl
  · rcases hw : dictWalk st.dStack top.nm with _ | v <;> simp [hw]
  · rcases hg : assocGet tbl top.nm with _ | v
    · simp only [hg]
      rcases hw : dictWalk st.dStack top.nm with _ | v <;> simp [hw]
    · simp only [hg]
      rcases hsh : st.dStack.dropLast.any
          (fun d => (assocGet d.entries top.nm).isSome) with _ | _
      · -- fast path taken: no dictionary above the bottom contains the key
        obtain ⟨hvop, d, hlast, hacc, hbind⟩ := htbl tbl hop top.nm v hg
        have hnone : ∀ d' ∈ st.dStack.dropLast, assocGet d'.entries top.nm = none := by
          intro d' hd'
          have hfalse := List.any_eq_false.mp hsh d' hd'
          rcases hx : assocGet d'.entries top.nm with _ | w
          · rfl
          · rw [hx] at hfalse; simp at hfalse
        have hsplit : st.dStack.dropLast ++ [d] = st.dStack :=
          List.dropLast_append_getLast? d hlast
        have hw : dictWalk st.dStack top.nm = some v := by
          rw [← hsplit, dictWalk_last _ _ _ hnone, if_neg (by omega)]
          exact hbind
        simp only [hw, hsh, Bool.false_eq_true, if_false, if_pos hvop]
      · -- shadowed: fall through to the normal walk
        simp only [hsh, if_true]
        rcases hw : dictWalk st.dStack top.nm with _ | v' <;> simp [hw]

/-- **C1.** When the top of the execution stack is an executable `Name`,
`exec_exec` walks the dictionary stack from top to bottom, skipping every
dictionary whose access is less than read-only, and takes the binding from
the first remaining dictionary that contains the key (`dictWalk` is exactly
that walk); if no dictionary binds the name it raises `undefined` after
pushing the offending name onto the operand stack, and otherwise it replaces
the top of the execution stack (leaving the rest of the execution stack in
place for the next iteration) with the looked-up value — an identical copy,
or the value itself for an `Operator`.  The hypothesis `htbl` is the program
invariant backing the operator-table fast path: table entries are operator
bindings of the bottom (system) dictionary, which is at least read-only. -/
theorem claim_C1 (st : EngineState) (top : PSObj)
    (htop : st.eStack.head? = some top)
    (hty : top.ty = C_T_NAME) (hat : top.attrib ≠ C_ATTRIB_LIT)
    (htbl : ∀ tbl, st.opTable = some tbl → ∀ k v, assocGet tbl k = some v →
      v.ty = C_T_OPERATOR ∧ ∃ d, st.dStack.getLast? = some d ∧
        ACCESS_READ_ONLY ≤ d.access ∧ assocGet d.entries k = some v) :
    ∃ st', exec_exec_step st = .state st' ∧
      match dictWalk st.dStack top.nm with
      | some v =>
          st'.err = st.err ∧ st'.oStack = st.oStack ∧
          st'.eStack.tail = st.eStack.tail ∧
          ∃ t, st'.eStack.head? = some t ∧ t.stripId = v.stripId ∧
            (v.ty = C_T_OPERATOR → t = v)
      | none =>
          st'.err = some PSErr.undefined ∧ st'.oStack = top :: st.oStack := by
  have h1 := exec_exec_step_eq_dispatch st top htop
  have htbl1 : ∀ tbl, (recordHist st top).opTable = some tbl →
      ∀ k v, assocGet tbl k = some v →
      v.ty = C_T_OPERATOR ∧ ∃ d, (recordHist st top).dStack.getLast? = some d ∧
        ACCESS_READ_ONLY ≤ d.access ∧ assocGet d.entries k = some v := by
    intro tbl h
    rw [recordHist_opTable] at h
    simpa [recordHist_dStack] using htbl tbl h
  have hspec := nameStep_spec (recordHist st top) top htbl1
  rw [recordHist_dStack] at hspec
  refine ⟨nameStep (recordHist st top) top, ?_, ?_⟩
  · rw [h1, dispatch_name _ _ hty hat]
  · rcases hw : dictWalk st.dStack top.nm with _ | v
    · rw [hw] at hspec
      dsimp only [] at hspec
      rw [hspec]
      exact ⟨rfl, by simp [psErrorE, recordHist_oStack]⟩
    · rw [hw] at hspec
      dsimp only [] at hspec
      by_cases hOp : v.ty = C_T_OPERATOR
      · rw [if_pos hOp] at hspec
        rw [hspec]
        exact ⟨recordHist_err st top, recordHist_oStack st top,
          by simp [recordHist_eStack], v, rfl, rfl, fun _ => rfl⟩
      · rw [if_neg hOp] at hspec
        rw [hspec]
        exact ⟨recordHist_err st top, recordHist_oStack st top,
          by simp [recordHist_eStack], v.withOid (recordHist st top).nextId, rfl,
          PSObj.stripId_withOid v _, fun h => absurd h hOp⟩

/-- The executable name of the C1 witness (interned key `42`). -/
def c1Name : PSObj :=
  .mk C_T_NAME C_ATTRIB_EXEC 21 42 (.pint 0) [] 0 0 0 (.pint 0) (.pint 0) (.pint 0) []

/-- The operator object bound to the C1 witness name. -/
def c1Op : PSObj :=
  .mk C_T_OPERATOR C_ATTRIB_EXEC 22 0 (.pint 0) [] 0 0 0 (.pint 0) (.pint 0) (.pint 0) []

/-- The (read-only) dictionary of the C1 witness. -/
def c1Dict : PSDict := { access := 2, entries := [(42, c1Op)] }

/-- The engine state of the C1 witness. -/
def c1St : EngineState := { baseSt with eStack := [c1Name], dStack := [c1Dict] }

theorem claim_C1_witness :
    c1St.eStack.head? = some c1Name ∧ c1Name.ty = C_T_NAME ∧
    c1Name.attrib ≠ C_ATTRIB_LIT ∧ c1St.opTable = none ∧
    (∃ st', exec_exec_step c1St = .state st' ∧
      match dictWalk c1St.dStack c1Name.nm with
      | some v =>
          st'.err = c1St.err ∧ st'.oStack = c1St.oStack ∧
          st'.eStack.tail = c1St.eStack.tail ∧
          ∃ t, st'.eStack.head? = some t ∧ t.stripId = v.stripId ∧
            (v.ty = C_T_OPERATOR → t = v)
      | none =>
          st'.err = some PSErr.undefined ∧ st'.oStack = c1Name :: c1St.oStack) :=
  ⟨rfl, rfl, by decide, rfl,
    claim_C1 c1St c1Name rfl rfl (by decide)
      (fun tbl h => by simp [c1St, baseSt] at h)⟩

/-- **C3.** For every successful dictionary-stack lookup performed by the
execution engine, if the bound value is not an `Operator` then the object
installed on the execution stack is a copy: value-equal but not
reference-identical to the entry stored in any dictionary on the dictionary
stack (under the allocator invariant that every stored entry's identity
precedes the `nextId` counter); if the bound value is an `Operator` it is
reused directly without copying. -/
theorem claim_C3 (st : EngineState) (top v : PSObj)
    (htop : st.eStack.head? = some top)
    (hty : top.ty = C_T_NAME) (hat : top.attrib ≠ C_ATTRIB_LIT)
    (htbl : ∀ tbl, st.opTable = some tbl → ∀ k v, assocGet tbl k = some v →
      v.ty = C_T_OPERATOR ∧ ∃ d, st.dStack.getLast? = some d ∧
        ACCESS_READ_ONLY ≤ d.access ∧ assocGet d.entries k = some v)
    (hfound : dictWalk st.dStack top.nm = some v)
    (hids : ∀ d ∈ st.dStack, ∀ p ∈ d.entries, (p.2).oid < st.nextId) :
    ∃ st' t, exec_exec_step st = .state st' ∧ st'.eStack.head? = some t ∧
      st'.dStack = st.dStack ∧
      (v.ty = C_T_OPERATOR → t = v) ∧
      (v.ty ≠ C_T_OPERATOR → t.stripId = v.stripId ∧
        ∀ d ∈ st.dStack, ∀ p ∈ d.entries, (p.2).oid ≠ t.oid) := by
  have h1 := exec_exec_step_eq_dispatch st top htop
  have htbl1 : ∀ tbl, (recordHist st top).opTable = some tbl →
      ∀ k v, assocGet tbl k = some v →
      v.ty = C_T_OPERATOR ∧ ∃ d, (recordHist st top).dStack.getLast? = some d ∧
        ACCESS_READ_ONLY ≤ d.access ∧ assocGet d.entries k = some v := by
    intro tbl h
    rw [recordHist_opTable] at h
    simpa [recordHist_dStack] using htbl tbl h
  have hspec := nameStep_spec (recordHist st top) top htbl1
  rw [recordHist_dStack, hfound] at hspec
  dsimp only [] at hspec
  by_cases hOp : v.ty = C_T_OPERATOR
  · rw [if_pos hOp] at hspec
    refine ⟨nameStep (recordHist st top) top, v, ?_, ?_, ?_,
      fun _ => rfl, fun h => absurd hOp h⟩
    · rw [h1, dispatch_name _ _ hty hat]
    · rw [hspec]; exact rfl
    · rw [hspec]
  · rw [if_neg hOp] at hspec
    refine ⟨nameStep (recordHist st top) top,
      v.withOid (recordHist st top).nextId, ?_, ?_, ?_,
      fun h => absurd h hOp, fun _ => ⟨PSObj.stripId_withOid v _, ?_⟩⟩
    · rw [h1, dispatch_name _ _ hty hat]
    · rw [hspec]; exact rfl
    · rw [hspec]
    · intro d hd p hp
      have hlt := hids d hd p hp
      have hge := recordHist_nextId_ge st top
      rw [PSObj.oid_withOid]
      omega

/-- The executable name of the C3 witness (interned key `43`). -/
def c3Name : PSObj :=
  .mk C_T_NAME C_ATTRIB_EXEC 31 43 (.pint 0) [] 0 0 0 (.pint 0) (.pint 0) (.pint 0) []

/-- The executable procedure bound to the C3 witness name (a non-operator,
so the lookup must copy it). -/
def c3Proc : PSObj :=
  .mk C_T_ARRAY C_ATTRIB_EXEC 32 0 (.pint 0) [] 0 0 0 (.pint 0) (.pint 0) (.pint 0) []

/-- The (read-only) dictionary of the C3 witness. -/
def c3Dict : PSDict := { access := 2, entries := [(43, c3Proc)] }

/-- The engine state of the C3 witness. -/
def c3St : EngineState := { baseSt with eStack := [c3Name], dStack := [c3Dict] }

theorem claim_C3_witness :
    c3St.eStack.head? = some c3Name ∧ c3Name.ty = C_T_NAME ∧
    c3Name.attrib ≠ C_ATTRIB_LIT ∧
    dictWalk c3St.dStack c3Name.nm = some c3Proc ∧
    (∀ d ∈ c3St.dStack, ∀ p ∈ d.entries, (p.2).oid < c3St.nextId) ∧
    (∃ st' t, exec_exec_step c3St = .state st' ∧ st'.eStack.head? = some t ∧
      st'.dStack = c3St.dStack ∧
      (c3Proc.ty = C_T_OPERATOR → t = c3Proc) ∧
      (c3Proc.ty ≠ C_T_OPERATOR → t.stripId = c3Proc.stripId ∧
        ∀ d ∈ c3St.dStack, ∀ p ∈ d.entries, (p.2).oid ≠ t.oid)) :=
  ⟨rfl, rfl, by decide, rfl,
    by
      intro d hd p hp
      simp [c3St, baseSt, c3Dict] at hd
      subst hd
      simp [c3Dict] at hp
      subst hp
      simp [c3Proc, PSObj.oid, c3St, baseSt],
    claim_C3 c3St c3Name c3Proc rfl rfl (by decide)
      (fun tbl h => by simp [c3St, baseSt] at h) rfl
      (by
        intro d hd p hp
        simp [c3St, baseSt, c3Dict] at hd
        subst hd
        simp [c3Dict] at hp
        subst hp
        simp [c3Proc, PSObj.oid, c3St, baseSt])⟩

/-! ## C2: peeling an executable array -/

/-- **C2 (amended).** When the top of the execution stack is an executable
array or packed array of length at least 1, `exec_exec` peels the front
element `obj = top.val[top.start]`:

* a nested executable (packed) array is pushed onto the **operand** stack as
  a copy, and the array is advanced (`start += 1`, `length -= 1`) in place;
* a literal element is pushed onto the operand stack — literal primitives
  (Int, Real, Bool, Null, Mark) by reference, all other literals as copies —
  and the array is advanced in place;
* an element that must be executed (neither literal nor an executable array)
  is pushed onto the execution stack when the length is at least 2 (with the
  array advanced), and when the length is exactly 1 it **replaces** the
  array on the execution stack (tail-call optimisation).

In particular the length-1 replacement happens only for elements that must
be executed; for literal and procedure elements the emptied array stays on
the execution stack. -/
theorem claim_C2_amended (st : EngineState) (top obj : PSObj)
    (htop : st.eStack.head? = some top)
    (hty : top.ty = C_T_ARRAY ∨ top.ty = C_T_PACKED_ARRAY)
    (hat : top.attrib = C_ATTRIB_EXEC)
    (hlen : 1 ≤ top.len)
    (hobj : top.buf.getD top.start psDefault = obj) :
    ∃ st', exec_exec_step st = .state st' ∧
      ((obj.ty = C_T_ARRAY ∨ obj.ty = C_T_PACKED_ARRAY) ∧ obj.attrib = C_ATTRIB_EXEC →
        st'.oStack = obj.withOid ((recordHist st top).nextId) :: st.oStack ∧
        st'.eStack = top.advance :: st.eStack.tail) ∧
      (¬((obj.ty = C_T_ARRAY ∨ obj.ty = C_T_PACKED_ARRAY) ∧ obj.attrib = C_ATTRIB_EXEC) →
        obj.attrib = C_ATTRIB_LIT →
        (isPrimTy obj.ty = true → st'.oStack = obj :: st.oStack) ∧
        (isPrimTy obj.ty = false →
          st'.oStack = obj.withOid ((recordHist st top).nextId) :: st.oStack) ∧
        st'.eStack = top.advance :: st.eStack.tail) ∧
      (¬((obj.ty = C_T_ARRAY ∨ obj.ty = C_T_PACKED_ARRAY) ∧ obj.attrib = C_ATTRIB_EXEC) →
        obj.attrib ≠ C_ATTRIB_LIT →
        st'.oStack = st.oStack ∧
        st'.eStack = (if top.len = 1 then obj :: st.eStack.tail
                      else obj :: top.advance :: st.eStack.tail)) := by
  have hat' : top.attrib ≠ C_ATTRIB_LIT := by
    rw [hat]; simp [C_ATTRIB_EXEC, C_ATTRIB_LIT]
  have h0 : ¬(top.len = 0) := by omega
  refine ⟨arrStep (recordHist st top) top, ?_, ?_, ?_, ?_⟩
  · rw [exec_exec_step_eq_dispatch st top htop, dispatch_arr _ _ hty hat']
  · intro hcase
    simp only [arrStep, hobj]
    rw [if_neg h0]
    by_cases hl1 : top.len = 1
    · rw [if_pos hl1, if_pos hcase]
      exact ⟨by simp [recordHist_oStack], by simp [recordHist_eStack]⟩
    · rw [if_neg hl1, if_pos hcase]
      exact ⟨by simp [recordHist_oStack], by simp [recordHist_eStack]⟩
  · intro hcase hlit
    simp only [arrStep, hobj]
    rw [if_neg h0]
    by_cases hl1 : top.len = 1
    · rw [if_pos hl1, if_neg hcase, if_pos hlit]
      by_cases hp : isPrimTy obj.ty = true
      · rw [if_pos hp]
        exact ⟨fun _ => by simp [recordHist_oStack],
          fun hq => absurd hp (by simp [hq]), by simp [recordHist_eStack]⟩
      · rw [if_neg hp]
        exact ⟨fun hq => absurd hq hp,
          fun _ => by simp [recordHist_oStack], by simp [recordHist_eStack]⟩
    · rw [if_neg hl1, if_neg hcase, if_pos hlit]
      by_cases hp : isPrimTy obj.ty = true
      · rw [if_pos hp]
        exact ⟨fun _ => by simp [recordHist_oStack],
          fun hq => absurd hp (by simp [hq]), by simp [recordHist_eStack]⟩
      · rw [if_neg hp]
        exact ⟨fun hq => absurd hq hp,
          fun _ => by simp [recordHist_oStack], by simp [recordHist_eStack]⟩
  · intro hcase hlit
    simp only [arrStep, hobj]
    rw [if_neg h0]
    by_cases hl1 : top.len = 1
    · rw [if_pos hl1, if_neg hcase, if_neg hlit, if_pos hl1]
      exact ⟨by simp [recordHist_oStack], by simp [recordHist_eStack]⟩
    · rw [if_neg hl1, if_neg hcase, if_neg hlit, if_neg hl1]
      exact ⟨by simp [recordHist_oStack], by simp [recordHist_eStack]⟩

/-- Formalisation of claim C2 exactly as stated: *"if the length is 1
[exec_exec] replaces the array on the execution stack with that last
element; otherwise it advances start by 1, decrements length by 1, and
pushes the element onto the execution stack if it must be executed, or onto
the operand stack if it is literal, where literal primitives are pushed by
reference and all other literals and all executable arrays are pushed as
copies."* -/
def claimC2Holds (st : EngineState) (out : StepOut) : Prop :=
  ∀ top, st.eStack.head? = some top →
    (top.ty = C_T_ARRAY ∨ top.ty = C_T_PACKED_ARRAY) →
    top.attrib = C_ATTRIB_EXEC → 1 ≤ top.len →
    ∃ st', out = .state st' ∧
      (top.len = 1 →
        st'.oStack = st.oStack ∧
        st'.eStack = top.buf.getD top.start psDefault :: st.eStack.tail) ∧
      (1 < top.len →
        (((top.buf.getD top.start psDefault).attrib = C_ATTRIB_LIT ∨
          (((top.buf.getD top.start psDefault).ty = C_T_ARRAY ∨
            (top.buf.getD top.start psDefault).ty = C_T_PACKED_ARRAY) ∧
            (top.buf.getD top.start psDefault).attrib = C_ATTRIB_EXEC)) →
          ∃ p, st'.oStack = p :: st.oStack ∧
            p.stripId = (top.buf.getD top.start psDefault).stripId ∧
            st'.eStack = top.advance :: st.eStack.tail) ∧
        (¬((top.buf.getD top.start psDefault).attrib = C_ATTRIB_LIT ∨
          (((top.buf.getD top.start psDefault).ty = C_T_ARRAY ∨
            (top.buf.getD top.start psDefault).ty = C_T_PACKED_ARRAY) ∧
            (top.buf.getD top.start psDefault).attrib = C_ATTRIB_EXEC)) →
          st'.oStack = st.oStack ∧
          st'.eStack = top.buf.getD top.start psDefault :: top.advance :: st.eStack.tail))

/-- The literal integer element of the C2 counterexample. -/
def c2Int : PSObj := psInt 50 (.pint 5)

/-- The length-1 executable array `{5}` of the C2 counterexample. -/
def c2Arr : PSObj :=
  .mk C_T_ARRAY C_ATTRIB_EXEC 51 0 (.pint 0) [c2Int] 0 1 0
    (.pint 0) (.pint 0) (.pint 0) []

/-- The engine state of the C2 counterexample. -/
def c2St : EngineState := { baseSt with eStack := [c2Arr] }

/-- The state actually produced by dispatching `c2Arr`: the literal element
is pushed onto the operand stack and the emptied array stays on the
execution stack. -/
def c2StAfter : EngineState :=
  { baseSt with oStack := [c2Int], eStack := [c2Arr.advance] }

/-- **C2 (counterexample).** Dispatching the length-1 executable array `{5}`
does **not** replace the array on the execution stack with its last element:
the literal `5` is pushed onto the operand stack and the emptied array
remains on the execution stack, refuting the claim's unconditional length-1
replacement. -/
theorem claim_C2_counterexample :
    c2St.eStack.head? = some c2Arr ∧ c2Arr.ty = C_T_ARRAY ∧
    c2Arr.attrib = C_ATTRIB_EXEC ∧ c2Arr.len = 1 ∧
    exec_exec_step c2St = .state c2StAfter ∧
    c2StAfter.oStack = [c2Int] ∧ c2StAfter.eStack = [c2Arr.advance] ∧
    ¬claimC2Holds c2St (exec_exec_step c2St) := by
  refine ⟨rfl, rfl, rfl, rfl, rfl, rfl, rfl, ?_⟩
  intro h
  obtain ⟨st', hout, h1, _⟩ := h c2Arr rfl (Or.inl rfl) rfl (by decide)
  have hstep : exec_exec_step c2St = .state c2StAfter := rfl
  rw [hstep] at hout
  injection hout with hst'
  obtain ⟨ho, he⟩ := h1 rfl
  rw [← hst'] at ho
  simp [c2StAfter, c2St, baseSt] at ho

theorem claim_C2_amended_witness :
    c2St.eStack.head? = some c2Arr ∧ (c2Arr.ty = C_T_ARRAY ∨ c2Arr.ty = C_T_PACKED_ARRAY) ∧
    c2Arr.attrib = C_ATTRIB_EXEC ∧ 1 ≤ c2Arr.len ∧
    c2Arr.buf.getD c2Arr.start psDefault = c2Int ∧
    (∃ st', exec_exec_step c2St = .state st' ∧
      ((c2Int.ty = C_T_ARRAY ∨ c2Int.ty = C_T_PACKED_ARRAY) ∧ c2Int.attrib = C_ATTRIB_EXEC →
        st'.oStack = c2Int.withOid ((recordHist c2St c2Arr).nextId) :: c2St.oStack ∧
        st'.eStack = c2Arr.advance :: c2St.eStack.tail) ∧
      (¬((c2Int.ty = C_T_ARRAY ∨ c2Int.ty = C_T_PACKED_ARRAY) ∧ c2Int.attrib = C_ATTRIB_EXEC) →
        c2Int.attrib = C_ATTRIB_LIT →
        (isPrimTy c2Int.ty = true → st'.oStack = c2Int :: c2St.oStack) ∧
        (isPrimTy c2Int.ty = false →
          st'.oStack = c2Int.withOid ((recordHist c2St c2Arr).nextId) :: c2St.oStack) ∧
        st'.eStack = c2Arr.advance :: c2St.eStack.tail) ∧
      (¬((c2Int.ty = C_T_ARRAY ∨ c2Int.ty = C_T_PACKED_ARRAY) ∧ c2Int.attrib = C_ATTRIB_EXEC) →
        c2Int.attrib ≠ C_ATTRIB_LIT →
        st'.oStack = c2St.oStack ∧
        st'.eStack = (if c2Arr.len = 1 then c2Int :: c2St.eStack.tail
                      else c2Int :: c2Arr.advance :: c2St.eStack.tail))) :=
  ⟨rfl, Or.inl rfl, rfl, by decide, rfl,
    claim_C2_amended c2St c2Arr c2Int rfl (Or.inl rfl) rfl (by decide) rfl⟩

/-! ## C5: the three CMYK converters and the PLRM undercolor formula -/

theorem truncQ_eq_floor (x : ℚ) (hx : 0 ≤ x) : truncQ x = ⌊x⌋ := by
  unfold truncQ
  rw [Int.tdiv_eq_ediv (Rat.num_nonneg.mpr hx) (by positivity), ← Rat.floor_def]

/-- Evaluation rule for the byte quantiser on a nonnegative in-range value. -/
theorem byteOfQ_eval (x : ℚ) (n : ℕ) (hn : n ≤ 255)
    (h1 : (n : ℚ) ≤ x * 255) (h2 : x * 255 < n + 1) : byteOfQ x = n := by
  have hx : (0 : ℚ) ≤ x * 255 := le_trans (by positivity) h1
  unfold byteOfQ
  rw [truncQ_eq_floor _ hx]
  have hf : ⌊x * 255⌋ = (n : ℤ) :=
    Int.floor_eq_iff.mpr ⟨by exact_mod_cast h1, by push_cast; exact_mod_cast h2⟩
  rw [hf, max_eq_right (by positivity), min_eq_right (by exact_mod_cast hn)]
  simp

theorem clamp01_formula (c k : ℚ) (hc : 0 ≤ c) (hk : 0 ≤ k) :
    clamp01 (1 - c - k) = 1 - min 1 (c + k) := by
  unfold clamp01
  rcases le_total (c + k) 1 with h | h
  · rw [min_eq_right (by linarith : (1 - c - k : ℚ) ≤ 1),
      max_eq_right (by linarith : (0 : ℚ) ≤ 1 - c - k),
      min_eq_right h]
    ring
  · rw [min_eq_right (by linarith : (1 - c - k : ℚ) ≤ 1),
      max_eq_left (by linarith : (1 - c - k : ℚ) ≤ 0),
      min_eq_left h]
    ring

theorem cmyk8_single (c m y k : ℕ) :
    cmyk8_to_bgrx [c, m, y, k] 1 = cmyk8Pixel c m y k := by
  simp [cmyk8_to_bgrx, show List.range 1 = [0] from rfl]

theorem cmyk4_single (decode : List ℚ) (b1 b2 : ℕ) :
    cmyk4_to_bgrx [b1, b2] 1 1 decode = cmyk4Pixel decode b1 b2 := by
  simp [cmyk4_to_bgrx, show List.range 1 = [0] from rfl]

theorem cmyk12_single (decode : List ℚ) (s0 s1 s2 s3 s4 s5 : ℕ) :
    cmyk12_to_bgrx [s0, s1, s2, s3, s4, s5] 1 1 decode =
      cmyk12Pixel decode (get12 [s0, s1, s2, s3, s4, s5] 0 0)
        (get12 [s0, s1, s2, s3, s4, s5] 0 1) (get12 [s0, s1, s2, s3, s4, s5] 0 2)
        (get12 [s0, s1, s2, s3, s4, s5] 0 3) := by
  simp [cmyk12_to_bgrx, show List.range 1 = [0] from rfl]

theorem cmyk8Pixel_plrm (c m y k : ℕ) :
    cmyk8Pixel c m y k =
      [255 - min 255 (y + k), 255 - min 255 (m + k), 255 - min 255 (c + k), 255] := by
  simp only [cmyk8Pixel, List.cons.injEq, and_true]
  and_intros <;> omega

/-- With the identity decode array, `cmyk4Pixel` computes the PLRM
undercolor formula `1 - min(1, component + black)` on each channel. -/
theorem cmyk4Pixel_plrm (b1 b2 : ℕ) :
    cmyk4Pixel [0, 1, 0, 1, 0, 1, 0, 1] b1 b2 =
      [byteOfQ (1 - min 1 ((nibHi b2 : ℚ) / 15 + (nibLo b2 : ℚ) / 15)),
       byteOfQ (1 - min 1 ((nibLo b1 : ℚ) / 15 + (nibLo b2 : ℚ) / 15)),
       byteOfQ (1 - min 1 ((nibHi b1 : ℚ) / 15 + (nibLo b2 : ℚ) / 15)), 255] := by
  have key : ∀ a b : ℕ,
      clamp01 (1 - ((0 : ℚ) + (a : ℚ) * ((1 - 0) / 15)) - ((0 : ℚ) + (b : ℚ) * ((1 - 0) / 15)))
        = 1 - min 1 ((a : ℚ) / 15 + (b : ℚ) / 15) := by
    intro a b
    have h2 : (1 : ℚ) - ((0 : ℚ) + (a : ℚ) * ((1 - 0) / 15)) - ((0 : ℚ) + (b : ℚ) * ((1 - 0) / 15))
        = 1 - (a : ℚ) / 15 - (b : ℚ) / 15 := by ring
    rw [h2]
    exact clamp01_formula ((a : ℚ) / 15) ((b : ℚ) / 15) (by positivity) (by positivity)
  simp only [cmyk4Pixel, List.getD_cons_zero, List.getD_cons_succ]
  simp only [key]

/-- With the identity decode array, `cmyk12Pixel` computes the
multiplicative formula `(1 - component) * (1 - black)` on each channel. -/
theorem cmyk12Pixel_mult (cv mv yv kv : ℕ) :
    cmyk12Pixel [0, 1, 0, 1, 0, 1, 0, 1] cv mv yv kv =
      [byteOfQ ((1 - (yv : ℚ) / 4095) * (1 - (kv : ℚ) / 4095)),
       byteOfQ ((1 - (mv : ℚ) / 4095) * (1 - (kv : ℚ) / 4095)),
       byteOfQ ((1 - (cv : ℚ) / 4095) * (1 - (kv : ℚ) / 4095)), 255] := by
  have key : ∀ a b : ℕ,
      (1 - ((0 : ℚ) + (a : ℚ) * ((1 - 0) / 4095))) * (1 - ((0 : ℚ) + (b : ℚ) * ((1 - 0) / 4095)))
        = (1 - (a : ℚ) / 4095) * (1 - (b : ℚ) / 4095) := by
    intro a b; ring
  simp only [cmyk12Pixel, List.getD_cons_zero, List.getD_cons_succ]
  simp only [key]

/-- **C5 (amended).** The 8-bit and 4-bit CMYK-to-BGRX converters apply the
PLRM undercolor formula `red = 1 - min(1, cyan + black)` (and likewise for
green/blue), scaled to the sample depth; `cmyk12_to_bgrx`, however, applies
the multiplicative formula `red = (1 - cyan) * (1 - black)`, so for the same
decoded CMYK component values the 12-bit converter can produce a different
RGB result than the 8-bit and 4-bit converters.  (Stated on single-pixel
inputs with the identity decode array; BGRX order puts blue first.) -/
theorem claim_C5_amended (c m y k b1 b2 s0 s1 s2 s3 s4 s5 : ℕ) :
    cmyk8_to_bgrx [c, m, y, k] 1 =
      [255 - min 255 (y + k), 255 - min 255 (m + k), 255 - min 255 (c + k), 255] ∧
    cmyk4_to_bgrx [b1, b2] 1 1 [0, 1, 0, 1, 0, 1, 0, 1] =
      [byteOfQ (1 - min 1 ((nibHi b2 : ℚ) / 15 + (nibLo b2 : ℚ) / 15)),
       byteOfQ (1 - min 1 ((nibLo b1 : ℚ) / 15 + (nibLo b2 : ℚ) / 15)),
       byteOfQ (1 - min 1 ((nibHi b1 : ℚ) / 15 + (nibLo b2 : ℚ) / 15)), 255] ∧
    cmyk12_to_bgrx [s0, s1, s2, s3, s4, s5] 1 1 [0, 1, 0, 1, 0, 1, 0, 1] =
      [byteOfQ ((1 - (get12 [s0, s1, s2, s3, s4, s5] 0 2 : ℚ) / 4095) *
          (1 - (get12 [s0, s1, s2, s3, s4, s5] 0 3 : ℚ) / 4095)),
       byteOfQ ((1 - (get12 [s0, s1, s2, s3, s4, s5] 0 1 : ℚ) / 4095) *
          (1 - (get12 [s0, s1, s2, s3, s4, s5] 0 3 : ℚ) / 4095)),
       byteOfQ ((1 - (get12 [s0, s1, s2, s3, s4, s5] 0 0 : ℚ) / 4095) *
          (1 - (get12 [s0, s1, s2, s3, s4, s5] 0 3 : ℚ) / 4095)), 255] :=
  ⟨(cmyk8_single c m y k).trans (cmyk8Pixel_plrm c m y k),
   (cmyk4_single [0, 1, 0, 1, 0, 1, 0, 1] b1 b2).trans (cmyk4Pixel_plrm b1 b2),
   (cmyk12_single [0, 1, 0, 1, 0, 1, 0, 1] s0 s1 s2 s3 s4 s5).trans
     (cmyk12Pixel_mult _ _ _ _)⟩

/-- **C5 (counterexample).** Both pixels below decode to the same CMYK
components (cyan = black = 8/15 = 2184/4095, magenta = yellow = 0, identity
decode), yet the 4-bit converter produces red byte `0` (PLRM undercolor:
`1 - min(1, 8/15 + 8/15) = 0`) while the 12-bit converter produces red byte
`55` (multiplicative: `(7/15)² · 255 ≈ 55.5`), refuting the claim that every
converter applies the PLRM formula and that equal decoded inputs give equal
RGB results. -/
theorem claim_C5_counterexample :
    nibHi 128 = 8 ∧ nibLo 128 = 0 ∧ nibHi 8 = 0 ∧ nibLo 8 = 8 ∧
    get12 [136, 128, 0, 0, 8, 136] 0 0 = 2184 ∧
    get12 [136, 128, 0, 0, 8, 136] 0 1 = 0 ∧
    get12 [136, 128, 0, 0, 8, 136] 0 2 = 0 ∧
    get12 [136, 128, 0, 0, 8, 136] 0 3 = 2184 ∧
    ((8 : ℚ) / 15 = (2184 : ℚ) / 4095) ∧
    cmyk4_to_bgrx [128, 8] 1 1 [0, 1, 0, 1, 0, 1, 0, 1] = [119, 119, 0, 255] ∧
    cmyk12_to_bgrx [136, 128, 0, 0, 8, 136] 1 1 [0, 1, 0, 1, 0, 1, 0, 1] =
      [119, 119, 55, 255] := by
  have e119 : byteOfQ (7 / 15 : ℚ) = 119 :=
    byteOfQ_eval _ 119 (by norm_num) (by norm_num) (by norm_num)
  have e55 : byteOfQ ((7 / 15 : ℚ) * (7 / 15)) = 55 :=
    byteOfQ_eval _ 55 (by norm_num) (by norm_num) (by norm_num)
  have e0 : byteOfQ (0 : ℚ) = 0 :=
    byteOfQ_eval _ 0 (by norm_num) (by norm_num) (by norm_num)
  refine ⟨rfl, rfl, rfl, rfl, by decide, by decide, by decide, by decide,
    by norm_num, ?_, ?_⟩
  · rw [cmyk4_single, cmyk4Pixel_plrm]
    have h1 : (1 : ℚ) - min 1 ((nibHi 8 : ℚ) / 15 + (nibLo 8 : ℚ) / 15) = 7 / 15 := by
      rw [show nibHi 8 = 0 from rfl, show nibLo 8 = 8 from rfl]
      rw [min_eq_right (by norm_num)]
      norm_num
    have h2 : (1 : ℚ) - min 1 ((nibLo 128 : ℚ) / 15 + (nibLo 8 : ℚ) / 15) = 7 / 15 := by
      rw [show nibLo 128 = 0 from rfl, show nibLo 8 = 8 from rfl]
      rw [min_eq_right (by norm_num)]
      norm_num
    have h3 : (1 : ℚ) - min 1 ((nibHi 128 : ℚ) / 15 + (nibLo 8 : ℚ) / 15) = 0 := by
      rw [show nibHi 128 = 8 from rfl, show nibLo 8 = 8 from rfl]
      rw [min_eq_left (by norm_num)]
      norm_num
    rw [h1, h2, h3, e119, e0]
  · rw [cmyk12_single,
      show get12 [136, 128, 0, 0, 8, 136] 0 0 = 2184 by decide,
      show get12 [136, 128, 0, 0, 8, 136] 0 1 = 0 by decide,
      show get12 [136, 128, 0, 0, 8, 136] 0 2 = 0 by decide,
      show get12 [136, 128, 0, 0, 8, 136] 0 3 = 2184 by decide,
      cmyk12Pixel_mult]
    have h1 : (1 - (0 : ℕ) / (4095 : ℚ)) * (1 - (2184 : ℕ) / 4095) = 7 / 15 := by
      norm_num
    have h2 : (1 - (2184 : ℕ) / (4095 : ℚ)) * (1 - (2184 : ℕ) / 4095) =
        (7 / 15 : ℚ) * (7 / 15) := by
      norm_num
    rw [h1, h2, e119, e55]

/-! ## C10: color-key masking -/

/-- The claim-level description of a matching pixel: every raw sample
component equals the mask component (or lies within the `[low, high]` pair
when `is_range` is set). -/
def pixelMatchesSpec (sampleData maskColor : List ℕ) (isRange : Bool)
    (n p : ℕ) : Prop :=
  ∀ i < n,
    if isRange then
      maskColor.getD (i * 2) 0 ≤ sampleData.getD (p * n + i) 0 ∧
        sampleData.getD (p * n + i) 0 ≤ maskColor.getD (i * 2 + 1) 0
    else sampleData.getD (p * n + i) 0 = maskColor.getD i 0

theorem sampleMatches_iff (sd mc : List ℕ) (isR : Bool) (n p : ℕ) :
    sampleMatches sd mc isR n (p * n) = true ↔ pixelMatchesSpec sd mc isR n p := by
  unfold sampleMatches pixelMatchesSpec
  cases isR <;>
    simp [List.all_eq_true, List.mem_range, decide_eq_true_iff]

instance (sd mc : List ℕ) (isR : Bool) (n p : ℕ) :
    Decidable (pixelMatchesSpec sd mc isR n p) :=
  decidable_of_iff _ (sampleMatches_iff sd mc isR n p)

theorem getD_set_nat : ∀ (l : List ℕ) (i j a : ℕ),
    (l.set i a).getD j 0 = if i = j ∧ j < l.length then a else l.getD j 0
  | [], i, j, a => by simp
  | hd :: tl, 0, 0, a => by simp
  | hd :: tl, 0, j + 1, a => by
    simp only [List.set, List.getD_cons_succ, List.length_cons]
    rw [if_neg (by omega)]
  | hd :: tl, i + 1, 0, a => by
    simp only [List.set, List.getD_cons_zero]
    rw [if_neg (by omega)]
  | hd :: tl, i + 1, j + 1, a => by
    simp only [List.set, List.getD_cons_succ, List.length_cons]
    rw [getD_set_nat tl i j a]
    by_cases h : i = j ∧ j < tl.length
    · rw [if_pos h, if_pos ⟨by omega, by omega⟩]
    · rw [if_neg h, if_neg (by intro hc; exact h ⟨by omega, by omega⟩)]

theorem maskGo_getD (sd : List ℕ) (n : ℕ) (mc : List ℕ) (isR : Bool) :
    ∀ (count pixelIdx : ℕ) (pd : List ℕ),
      (pixelIdx + count) * n ≤ sd.length →
      ∀ j, (maskGo sd n mc isR pd pixelIdx count).getD j 0 =
        if j % 4 = 3 ∧ pixelIdx ≤ j / 4 ∧ j / 4 < pixelIdx + count ∧
            sampleMatches sd mc isR n ((j / 4) * n) = true ∧ j < pd.length
        then 0 else pd.getD j 0 := by
  intro count
  induction count with
  | zero =>
    intro pixelIdx pd _ j
    rw [if_neg (by rintro ⟨_, h1, h2, _, _⟩; omega)]
    rfl
  | succ c ih =>
    intro pixelIdx pd h j
    have hmono : (pixelIdx + 1) * n ≤ sd.length := by
      refine le_trans (Nat.mul_le_mul_right n ?_) h
      omega
    have hbreak : ¬(sd.length < pixelIdx * n + n) := by
      rw [Nat.succ_mul] at hmono
      omega
    show (maskGo sd n mc isR _ _ _).getD j 0 = _
    rw [maskGo, if_neg hbreak]
    have hnext : (pixelIdx + 1 + c) * n ≤ sd.length := by
      rw [show pixelIdx + 1 + c = pixelIdx + (c + 1) by omega]
      exact h
    set pd' :=
      if sampleMatches sd mc isR n (pixelIdx * n) = true then
        if pixelIdx * 4 + 3 < pd.length then pd.set (pixelIdx * 4 + 3) 0 else pd
      else pd with hpd'
    have hlen' : pd'.length = pd.length := by
      rw [hpd']
      split
      · split
        · exact List.length_set pd _ _
        · rfl
      · rfl
    rw [ih (pixelIdx + 1) pd' hnext j]
    by_cases hc : j % 4 = 3 ∧ j / 4 = pixelIdx
    · obtain ⟨h3, h4⟩ := hc
      have hj : j = pixelIdx * 4 + 3 := by omega
      rw [if_neg (by rintro ⟨_, hle, _, _, _⟩; omega)]
      by_cases hm : sampleMatches sd mc isR n (pixelIdx * n) = true
      · by_cases hlt : pixelIdx * 4 + 3 < pd.length
        · have hset : pd' = pd.set (pixelIdx * 4 + 3) 0 := by
            rw [hpd', if_pos hm, if_pos hlt]
          rw [hset, getD_set_nat, if_pos ⟨by omega, by omega⟩,
            if_pos ⟨h3, by omega, by omega, by rw [h4]; exact hm, by omega⟩]
        · have hne : pd' = pd := by rw [hpd', if_pos hm, if_neg hlt]
          rw [hne, if_neg (by rintro ⟨_, _, _, _, hbad⟩; omega)]
      · have hne : pd' = pd := by rw [hpd', if_neg hm]
        rw [hne, if_neg (by rintro ⟨_, _, _, hbad, _⟩; rw [h4] at hbad; exact hm hbad)]
    · have hpdj : pd'.getD j 0 = pd.getD j 0 := by
        rw [hpd']
        split
        · split
          · rw [getD_set_nat,
              if_neg (by rintro ⟨he, _⟩; exact hc ⟨by omega, by omega⟩)]
          · rfl
        · rfl
      rw [hlen', hpdj]
      by_cases h3 : j % 4 = 3
      · have hne : j / 4 ≠ pixelIdx := fun he => hc ⟨h3, he⟩
        refine if_congr ?_ rfl rfl
        constructor
        · rintro ⟨a, b, c', d, e⟩; exact ⟨a, by omega, by omega, d, e⟩
        · rintro ⟨a, b, c', d, e⟩; exact ⟨a, by omega, by omega, d, e⟩
      · rw [if_neg (by rintro ⟨hbad, _⟩; exact h3 hbad),
          if_neg (by rintro ⟨hbad, _⟩; exact h3 hbad)]

theorem maskGo_length (sd : List ℕ) (n : ℕ) (mc : List ℕ) (isR : Bool) :
    ∀ (count pixelIdx : ℕ) (pd : List ℕ),
      (maskGo sd n mc isR pd pixelIdx count).length = pd.length := by
  intro count
  induction count with
  | zero => intro pixelIdx pd; rfl
  | succ c ih =>
    intro pixelIdx pd
    rw [maskGo]
    split
    · rfl
    · rw [ih]
      split
      · split
        · exact List.length_set pd _ _
        · rfl
      · rfl

/-- **C10.** `apply_color_key_mask_8` writes only alpha bytes of
`pixel_data` (byte indices congruent to 3 mod 4): for every in-bounds pixel
whose raw sample components all match `mask_color` (exact equality, or
containment in the `[low, high]` pairs when `is_range` is set) the alpha
byte is set to 0, and every other byte of `pixel_data` is left unchanged —
stated as a complete per-byte characterisation of the result, under the
premise that the sample buffer covers all `width * height` pixels. -/
theorem claim_C10 (pixelData sampleData maskColor : List ℕ)
    (width height components : ℕ) (isRange : Bool)
    (hs : width * height * components ≤ sampleData.length) :
    (apply_color_key_mask_8 pixelData sampleData width height components
        maskColor isRange).length = pixelData.length ∧
    ∀ j, (apply_color_key_mask_8 pixelData sampleData width height components
        maskColor isRange).getD j 0 =
      if j % 4 = 3 ∧ j / 4 < width * height ∧
          pixelMatchesSpec sampleData maskColor isRange components (j / 4) ∧
          j < pixelData.length
      then 0 else pixelData.getD j 0 := by
  constructor
  · exact maskGo_length sampleData components maskColor isRange _ _ _
  · intro j
    unfold apply_color_key_mask_8
    rw [maskGo_getD sampleData components maskColor isRange (width * height) 0
      pixelData (by rw [Nat.zero_add]; exact hs) j]
    refine if_congr ?_ rfl rfl
    constructor
    · rintro ⟨a, _, b, c, d⟩
      exact ⟨a, by omega, (sampleMatches_iff _ _ _ _ _).mp c, d⟩
    · rintro ⟨a, b, c, d⟩
      exact ⟨a, by omega, by omega, (sampleMatches_iff _ _ _ _ _).mpr c, d⟩

theorem claim_C10_witness :
    1 * 1 * 1 ≤ ([7] : List ℕ).length ∧
    (apply_color_key_mask_8 [9, 9, 9, 9] [7] 1 1 1 [7] false).length =
      ([9, 9, 9, 9] : List ℕ).length ∧
    (apply_color_key_mask_8 [9, 9, 9, 9] [7] 1 1 1 [7] false).getD 3 0 =
      (if 3 % 4 = 3 ∧ 3 / 4 < 1 * 1 ∧
          pixelMatchesSpec [7] [7] false 1 (3 / 4) ∧ 3 < ([9, 9, 9, 9] : List ℕ).length
       then 0 else ([9, 9, 9, 9] : List ℕ).getD 3 0) ∧
    (apply_color_key_mask_8 [9, 9, 9, 9] [7] 1 1 1 [7] false).getD 2 0 =
      (if 2 % 4 = 3 ∧ 2 / 4 < 1 * 1 ∧
          pixelMatchesSpec [7] [7] false 1 (2 / 4) ∧ 2 < ([9, 9, 9, 9] : List ℕ).length
       then 0 else ([9, 9, 9, 9] : List ℕ).getD 2 0) :=
  ⟨by decide,
   (claim_C10 [9, 9, 9, 9] [7] [7] 1 1 1 false (by decide)).1,
   (claim_C10 [9, 9, 9, 9] [7] [7] 1 1 1 false (by decide)).2 3,
   (claim_C10 [9, 9, 9, 9] [7] [7] 1 1 1 false (by decide)).2 2⟩

theorem claim_C5_amended_witness :
    cmyk8_to_bgrx [100, 50, 25, 200] 1 =
      [255 - min 255 (25 + 200), 255 - min 255 (50 + 200),
       255 - min 255 (100 + 200), 255] ∧
    cmyk4_to_bgrx [128, 8] 1 1 [0, 1, 0, 1, 0, 1, 0, 1] =
      [byteOfQ (1 - min 1 ((nibHi 8 : ℚ) / 15 + (nibLo 8 : ℚ) / 15)),
       byteOfQ (1 - min 1 ((nibLo 128 : ℚ) / 15 + (nibLo 8 : ℚ) / 15)),
       byteOfQ (1 - min 1 ((nibHi 128 : ℚ) / 15 + (nibLo 8 : ℚ) / 15)), 255] ∧
    cmyk12_to_bgrx [136, 128, 0, 0, 8, 136] 1 1 [0, 1, 0, 1, 0, 1, 0, 1] =
      [byteOfQ ((1 - (get12 [136, 128, 0, 0, 8, 136] 0 2 : ℚ) / 4095) *
          (1 - (get12 [136, 128, 0, 0, 8, 136] 0 3 : ℚ) / 4095)),
       byteOfQ ((1 - (get12 [136, 128, 0, 0, 8, 136] 0 1 : ℚ) / 4095) *
          (1 - (get12 [136, 128, 0, 0, 8, 136] 0 3 : ℚ) / 4095)),
       byteOfQ ((1 - (get12 [136, 128, 0, 0, 8, 136] 0 0 : ℚ) / 4095) *
          (1 - (get12 [136, 128, 0, 0, 8, 136] 0 3 : ℚ) / 4095)), 255] :=
  ⟨(claim_C5_amended 100 50 25 200 128 8 136 128 0 0 8 136).1,
   (claim_C5_amended 100 50 25 200 128 8 136 128 0 0 8 136).2.1,
   (claim_C5_amended 100 50 25 200 128 8 136 128 0 0 8 136).2.2⟩
